import Mathlib

/-!
Verification of the mesh assembly, partition-ownership resolution and
interface-reconciliation engine of the nimr Gmsh reader (`gmsh::Reader` in
`src/GmshReader.cpp` and `src/GmshReader.hpp`).

The C++ code is shallowly embedded: `std::map` becomes an association list
kept in ascending key order, `std::set` becomes a sorted duplicate-free list,
machine integers become `Int`, and operations that can throw become
`Option`-valued functions.  Every definition follows the corresponding source
function; definitions whose C++ source file (`ElementData.hpp`) is not part of
the sources are modelled from the specification and say so in their doc
comment.
-/

namespace gmsh

/-- Node record parsed from the `$Nodes` section (`NodeData` in
`GmshReader.hpp`): format-assigned id plus three coordinates. -/
structure NodeData where
  id : Int
  coordinates : List ℚ
deriving Repr, DecidableEq

/-- Element record parsed from the `$Elements` section: id, gmsh element type
id, the raw tag list and the nodal connectivity
(`ElementData(nodalConnectivity, tags, elementTypeId, id)` in the source). -/
structure ElementData where
  id : Int
  elementTypeId : Int
  tags : List Int
  nodalConnectivity : List Int
deriving Repr, DecidableEq

/-- Modelled from the spec: `ElementData::isSharedByMultipleProcesses` lives in
`ElementData.hpp`, which is not among the sources.  Section 3 of the spec fixes
the tag convention: `tags[2]` is the count of partition-sharing entries, `0` if
the element belongs to a single partition only. -/
def ElementData.isSharedByMultipleProcesses (e : ElementData) : Bool :=
  decide (0 < e.tags.getD 2 0)

/-- Modelled from the spec: `ElementData::maxProcessId` lives in
`ElementData.hpp`, which is not among the sources.  Per sections 3 and 4.3 the
owning partition id is `tags[3]`, the other sharing partitions are
`tags[4 .. 3 + tags[2])` (stored negated), and the assembler takes the maximum
absolute partition id seen among them; an element carrying no partition tags
contributes the neutral single-partition value 1. -/
def ElementData.maxProcessId (e : ElementData) : Int :=
  if 4 ≤ e.tags.length then
    (((List.range ((e.tags.getD 2 0).toNat - 1)).map
        (fun j => (e.tags.getD (4 + j) 0).natAbs)).foldl
      max (e.tags.getD 3 0).natAbs : Nat)
  else 1

/-- Modelled from the spec: `ElementData::isOwnedByProcess` lives in
`ElementData.hpp`, which is not among the sources.  Section 4.5: an element is
owned by partition `p` when `abs(tags[3]) == p`. -/
def ElementData.isOwnedByProcess (e : ElementData) (p : Int) : Bool :=
  decide (((e.tags.getD 3 0).natAbs : Int) = p)

/-- Modelled from the spec: `ElementData::convertToZeroBasedIndexing` lives in
`ElementData.hpp`, which is not among the sources.  Section 4.5 and the source
comment above the call site ("correct the nodal connectivities, the mappings
and the nodal and element ids"): decrement the element id and every nodal
connectivity entry by one. -/
def ElementData.convertToZeroBasedIndexing (e : ElementData) : ElementData :=
  { e with id := e.id - 1, nodalConnectivity := e.nodalConnectivity.map (fun n => n - 1) }

/-- `Reader::mapElementData` (GmshReader.cpp): the element type catalog.  The
switch returns the number of local nodes per element for each member of the
`ELEMENT_TYPE_ID` enumeration (values from `GmshReader.hpp`); the default
branch throws `GmshReaderException`, embedded as `none`. -/
def mapElementData (elementTypeId : Int) : Option Int :=
  match elementTypeId with
  | 1 => some 2     -- LINE2
  | 2 => some 3     -- TRIANGLE3
  | 3 => some 4     -- QUADRILATERAL4
  | 4 => some 4     -- TETRAHEDRON4
  | 5 => some 8     -- HEXAHEDRON8
  | 6 => some 6     -- PRISM6
  | 7 => some 5     -- PYRAMID5
  | 8 => some 3     -- LINE3
  | 9 => some 6     -- TRIANGLE6
  | 10 => some 9    -- QUADRILATERAL9
  | 11 => some 10   -- TETRAHEDRON10
  | 12 => some 27   -- HEXAHEDRON27
  | 13 => some 18   -- PRISM18
  | 14 => some 14   -- PYRAMID14
  | 15 => some 1    -- POINT
  | 16 => some 8    -- QUADRILATERAL8
  | 17 => some 20   -- HEXAHEDRON20
  | 18 => some 15   -- PRISM15
  | 19 => some 13   -- PYRAMID13
  | 20 => some 19   -- TRIANGLE9: the source returns 19 here
  | 21 => some 10   -- TRIANGLE10
  | 22 => some 12   -- TRIANGLE12
  | 23 => some 15   -- TRIANGLE15
  | 24 => some 15   -- TRIANGLE15_IC
  | 25 => some 21   -- TRIANGLE21
  | 26 => some 4    -- EDGE4
  | 27 => some 5    -- EDGE5
  | 28 => some 6    -- EDGE6
  | 29 => some 20   -- TETRAHEDRON20
  | 30 => some 35   -- TETRAHEDRON35
  | 31 => some 56   -- TETRAHEDRON56
  | 92 => some 64   -- HEXAHEDRON64
  | 93 => some 125  -- HEXAHEDRON125
  | _ => none

/-- The set of element type ids handled by the `mapElementData` switch. -/
def knownElementTypeIds : List Int :=
  [1, 2, 3, 4, 5, 6, 7, 8, 9, 10, 11, 12, 13, 14, 15, 16, 17, 18, 19, 20,
   21, 22, 23, 24, 25, 26, 27, 28, 29, 30, 31, 92, 93]

/-- `Reader::checkSupportedGmsh` (GmshReader.cpp): throws when the declared
format version is below 2.2 and returns normally otherwise.  The version read
from the header is embedded as a rational. -/
def checkSupportedGmsh (gmshVersion : ℚ) : Except String Unit :=
  if gmshVersion < 22 / 10 then
    Except.error "GmshVersion is not supported"
  else
    Except.ok ()

/-- Strict lexicographic order on the ordered partition-pair keys of
`interfaceElementMap` (the comparator of its `std::map`). -/
def pairLt (p q : Int × Int) : Prop :=
  p.1 < q.1 ∨ (p.1 = q.1 ∧ p.2 < q.2)

instance (p q : Int × Int) : Decidable (pairLt p q) := by
  unfold pairLt
  exact inferInstance

/-- Strict lexicographic order on the (physical-group-name, element-type) keys
of `Reader::Mesh` (the comparator of its `std::map`). -/
def meshKeyLt (p q : String × Int) : Prop :=
  p.1 < q.1 ∨ (p.1 = q.1 ∧ p.2 < q.2)

instance (p q : String × Int) : Decidable (meshKeyLt p q) := by
  unfold meshKeyLt
  exact inferInstance

/-- `Reader::Mesh`: `std::map` from (physical name, element type id) to the
bucket of elements for that key, embedded as an association list kept in
ascending key order. -/
abbrev Mesh := List ((String × Int) × List ElementData)

def meshLookup : Mesh → String × Int → Option (List ElementData)
  | [], _ => none
  | (k, v) :: rest, key => if key = k then some v else meshLookup rest key

/-- The mesh update `meshes[key].push_back(elementData)` of `Reader::fillMesh`:
append to the bucket at `key`, creating the bucket (as `operator[]` does) when
the key is absent. -/
def meshInsert : Mesh → String × Int → ElementData → Mesh
  | [], key, e => [(key, [e])]
  | (k, v) :: rest, key, e =>
    if key = k then (k, v ++ [e]) :: rest
    else if meshKeyLt key k then (key, [e]) :: (k, v) :: rest
    else (k, v) :: meshInsert rest key e

/-- Lookup in `physicalGroupMap` (`std::map<int, std::string>::find`). -/
def pgmFind : List (Int × String) → Int → Option String
  | [], _ => none
  | (k, v) :: rest, key => if key = k then some v else pgmFind rest key

/-- The read `physicalGroupMap[physicalId]` of `Reader::fillMesh` uses
`std::map::operator[]`: it returns the mapped name and, when the key is
absent, inserts a default-constructed empty string for it.  The function
returns the updated map together with the name that was used. -/
def mapDefaultIndex : List (Int × String) → Int → List (Int × String) × String
  | [], key => ([(key, "")], "")
  | (k, v) :: rest, key =>
    if key = k then ((k, v) :: rest, v)
    else if key < k then ((key, "") :: (k, v) :: rest, "")
    else
      let r := mapDefaultIndex rest key
      ((k, v) :: r.1, r.2)

/-- Ordered insertion into a `std::set<int>`, embedded as a sorted
duplicate-free list. -/
def setInsert (x : Int) : List Int → List Int
  | [] => [x]
  | y :: rest =>
    if x = y then y :: rest
    else if x < y then x :: y :: rest
    else y :: setInsert x rest

/-- The constructor `std::set<int>(first, last)` over a connectivity list. -/
def setOfList (l : List Int) : List Int :=
  l.foldl (fun s x => setInsert x s) []

/-- `interfaceElementMap`: `std::map` from the ordered (owner, sharer) pair to
the `std::set` of interface node ids, embedded as an association list in
ascending key order whose values are sorted duplicate-free lists. -/
abbrev IMap := List ((Int × Int) × List Int)

def imapFind : IMap → Int × Int → Option (List Int)
  | [], _ => none
  | (k, v) :: rest, key => if key = k then some v else imapFind rest key

/-- The interface-map update of `Reader::fillMesh`: when the ownership key is
present, `emplace` every connectivity node id into its set, otherwise `emplace`
a fresh set built from the connectivity. -/
def imapInsertNodes : IMap → Int × Int → List Int → IMap
  | [], key, nodes => [(key, setOfList nodes)]
  | (k, v) :: rest, key, nodes =>
    if key = k then (k, nodes.foldl (fun s x => setInsert x s) v) :: rest
    else if pairLt key k then (key, setOfList nodes) :: (k, v) :: rest
    else (k, v) :: imapInsertNodes rest key nodes

/-- The state that `Reader::fillMesh` threads through the `$Elements` loop:
the physical-group map (mutated by `operator[]`), the mesh buckets, the
interface element map, and the running partition count, whose in-class
initialiser in `GmshReader.hpp` is 1. -/
structure AssemblyState where
  physicalGroupMap : List (Int × String)
  meshes : Mesh
  interfaceElementMap : IMap
  number_of_partitions : Int
deriving Repr, DecidableEq

/-- The body of the `$Elements` loop of `Reader::fillMesh` for one parsed
element: resolve the physical name via `physicalGroupMap[tags[0]]`, update the
partition count with `std::max`, push the element into its mesh bucket, and
for a shared element union its connectivity into `interfaceElementMap` under
each ownership key `(tags[3], -tags[i])` for `i` in `[4, tags[2] + 3)`. -/
def processElement (s : AssemblyState) (elementData : ElementData) : AssemblyState :=
  let tags := elementData.tags
  let physicalId := tags.getD 0 0
  let pg := mapDefaultIndex s.physicalGroupMap physicalId
  let nparts := max elementData.maxProcessId s.number_of_partitions
  let ms := meshInsert s.meshes (pg.2, elementData.elementTypeId) elementData
  let imap :=
    if elementData.isSharedByMultipleProcesses then
      (List.range ((tags.getD 2 0).toNat - 1)).foldl
        (fun acc j =>
          imapInsertNodes acc (tags.getD 3 0, -(tags.getD (4 + j) 0))
            elementData.nodalConnectivity)
        s.interfaceElementMap
    else s.interfaceElementMap
  { physicalGroupMap := pg.1, meshes := ms,
    interfaceElementMap := imap, number_of_partitions := nparts }

/-- The `$Elements` section of `Reader::fillMesh`: fold the loop body over the
parsed elements, starting from the parsed physical names, empty mesh and
interface maps, and the initial partition count 1. -/
def assembleElements (physicalGroupMap : List (Int × String))
    (elements : List ElementData) : AssemblyState :=
  elements.foldl processElement
    { physicalGroupMap := physicalGroupMap, meshes := [],
      interfaceElementMap := [], number_of_partitions := 1 }

/-- The connectivity-gathering loops of `Reader::fillLocalToGlobalMap`:
`boost::copy` every element connectivity of every bucket into one flat list. -/
def allConnectivity (process_mesh : Mesh) : List Int :=
  (process_mesh.map (fun kv => (kv.2.map (fun e => e.nodalConnectivity)).flatten)).flatten

/-- `std::unique` followed by `erase` on a sorted range: drop consecutive
duplicate entries. -/
def uniqueAdjacent : List Int → List Int
  | [] => []
  | [a] => [a]
  | a :: b :: rest =>
    if a = b then uniqueAdjacent (b :: rest) else a :: uniqueAdjacent (b :: rest)

/-- `Reader::fillLocalToGlobalMap`: copy every connectivity entry of the
process mesh, `boost::sort` the list, and erase consecutive duplicates with
`std::unique`. -/
def fillLocalToGlobalMap (process_mesh : Mesh) : List Int :=
  uniqueAdjacent (List.insertionSort (· ≤ ·) (allConnectivity process_mesh))

/-- `boost::lower_bound` on a sorted list, as the distance from `begin`: the
number of leading entries strictly below `x`. -/
def lowerBound (l : List Int) (x : Int) : Nat :=
  (l.takeWhile (fun y => decide (y < x))).length

/-- `Reader::reorderLocalMesh`: rewrite every connectivity entry to one plus
the distance to its `boost::lower_bound` position in the local-to-global
mapping (the default one-based local numbering). -/
def reorderLocalMesh (process_mesh : Mesh) (local_global_mapping : List Int) : Mesh :=
  process_mesh.map fun kv =>
    (kv.1, kv.2.map fun e =>
      { e with nodalConnectivity := e.nodalConnectivity.map fun node =>
          ((lowerBound local_global_mapping node : Int) + 1) })

/-- The read-back direction of the round-trip stated by the claim: map every
local rank `r` of a renumbered mesh back to `localToGlobalMap[r - 1]`. -/
def remapThroughMapping (local_global_mapping : List Int) (process_mesh : Mesh) : Mesh :=
  process_mesh.map fun kv =>
    (kv.1, kv.2.map fun e =>
      { e with nodalConnectivity := e.nodalConnectivity.map fun r =>
          local_global_mapping.getD (r - 1).toNat 0 })

/-- `Reader::fillLocalNodeList`: gather `nodeList[node_index - 1]` for every
entry of the local-to-global mapping.  The positional vector access is
embedded as `none` whenever the index falls outside the node list. -/
def fillLocalNodeList (nodeList : List NodeData) : List Int → Option (List NodeData)
  | [] => some []
  | node_index :: rest =>
    match (if 1 ≤ node_index then nodeList.get? (node_index.toNat - 1) else none),
        fillLocalNodeList nodeList rest with
    | some nd, some tail => some (nd :: tail)
    | _, _ => none

/-- One entry of the "Interface" array emitted by `Reader::writeInJsonFormat`:
master partition id, sign value, slave partition id, agreed node ids, and the
global start id at which this pair's interface numbering begins. -/
structure InterfaceGroup where
  master : Int
  value : Int
  slave : Int
  nodeIds : List Int
  globalStartId : Int
deriving Repr, DecidableEq

/-- `std::set_intersection` over two sorted duplicate-free sets: the sorted
filter of the first by membership in the second. -/
def sinter (v1 v2 : List Int) : List Int :=
  v1.filter (fun x => v2.contains x)

/-- The interface loop of `Reader::writeInJsonFormat`: iterate the ordered
`interfaceElementMap` with a running `globalStartId`; for every key with
`masterId < slaveId` look up the complementary key with `std::map::at`
(embedded as `none` for the uncaught out-of-range throw), intersect the two
one-sided sets, emit a group when `processId` is one of the two involved
partitions, and advance the counter by the intersection size for every such
pair regardless of emission. -/
def interfaceSection (full : IMap) (processId : Int) :
    IMap → Int → Option (List InterfaceGroup × Int)
  | [], globalStartId => some ([], globalStartId)
  | ((masterId, slaveId), v1) :: rest, globalStartId =>
    if masterId < slaveId then
      match imapFind full (slaveId, masterId) with
      | none => none
      | some v2 =>
        match interfaceSection full processId rest
            (globalStartId + ((sinter v1 v2).length : Int)) with
        | none => none
        | some (groups, total) =>
          if processId = masterId - 1 ∨ processId = slaveId - 1 then
            some ({ master := masterId,
                    value := if processId = masterId - 1 then 1 else -1,
                    slave := slaveId,
                    nodeIds := sinter v1 v2,
                    globalStartId := globalStartId } :: groups, total)
          else
            some (groups, total)
    else
      interfaceSection full processId rest globalStartId

/-- One reconciled pair of the global interface numbering. -/
structure IfaceBlock where
  master : Int
  slave : Int
  nodeIds : List Int
  globalStartId : Int
deriving Repr, DecidableEq

/-- The global interface numbering computed by the loop of
`Reader::writeInJsonFormat` without the per-process emission filter: the
counter update `globalStartId += intersection.size()` runs for every
reconciled pair regardless of `processId`, so the numbering is common to all
partitions. -/
def reconcileAll (full : IMap) : IMap → Int → Option (List IfaceBlock × Int)
  | [], globalStartId => some ([], globalStartId)
  | ((masterId, slaveId), v1) :: rest, globalStartId =>
    if masterId < slaveId then
      match imapFind full (slaveId, masterId) with
      | none => none
      | some v2 =>
        match reconcileAll full rest
            (globalStartId + ((sinter v1 v2).length : Int)) with
        | none => none
        | some (blocks, total) =>
          some ({ master := masterId, slave := slaveId,
                  nodeIds := sinter v1 v2, globalStartId := globalStartId } :: blocks,
            total)
    else
      reconcileAll full rest globalStartId

/-- The per-process emission filter that `Reader::writeInJsonFormat` applies
to a reconciled block. -/
def emitFor (processId : Int) (blk : IfaceBlock) : Option InterfaceGroup :=
  if processId = blk.master - 1 ∨ processId = blk.slave - 1 then
    some { master := blk.master,
           value := if processId = blk.master - 1 then 1 else -1,
           slave := blk.slave, nodeIds := blk.nodeIds,
           globalStartId := blk.globalStartId }
  else none

/-- The id-carrying fields of the JSON document written by
`Reader::writeInJsonFormat` for one partition. -/
structure JsonOutput where
  coordinates : List (List ℚ)
  nodeIndices : List Int
  elements : List ((String × Int) × List (List Int) × List Int)
  localToGlobalMap : List Int
  interfaceGroups : List InterfaceGroup
  numInterfaceNodes : Int
deriving Repr, DecidableEq

/-- `Reader::writeInJsonFormat`: build the document for one process; `none`
embeds the uncaught `std::map::at` throw inside the interface loop. -/
def writeInJsonFormat (interfaceElementMap : IMap) (process_mesh : Mesh)
    (localToGlobalMapping : List Int) (nodalCoordinates : List NodeData)
    (processId : Int) (isMeshDistributed : Bool) (printIndices : Bool) :
    Option JsonOutput :=
  let coords := nodalCoordinates.map (fun node => node.coordinates)
  let nodeIdx := if printIndices then nodalCoordinates.map (fun node => node.id) else []
  let elems := process_mesh.map fun kv =>
    (kv.1, kv.2.map (fun e => e.nodalConnectivity),
      if printIndices then kv.2.map (fun e => e.id) else [])
  if isMeshDistributed then
    match interfaceSection interfaceElementMap processId interfaceElementMap 0 with
    | none => none
    | some (groups, total) =>
      some { coordinates := coords, nodeIndices := nodeIdx, elements := elems,
             localToGlobalMap := localToGlobalMapping,
             interfaceGroups := groups, numInterfaceNodes := total }
  else
    some { coordinates := coords, nodeIndices := nodeIdx, elements := elems,
           localToGlobalMap := [], interfaceGroups := [], numInterfaceNodes := 0 }

/-- The body of the partition loop of `Reader::writeMeshToJson` for one
partition: filter the elements owned by `partition + 1`, build the
local-to-global mapping and the local node list, optionally reorder the
connectivity to local numbering, optionally convert to zero-based indexing,
and write the JSON document. -/
def partitionOutput (meshes : Mesh) (nodeList : List NodeData)
    (interfaceElementMap : IMap) (number_of_partitions : Int)
    (useLocalNodalConnectivity useZeroBasedIndexing printIndices : Bool)
    (partition : Int) : Option JsonOutput :=
  let process_mesh : Mesh :=
    (meshes.map fun kv =>
      (kv.1, kv.2.filter (fun e => e.isOwnedByProcess (partition + 1)))).filter
      (fun kv => !kv.2.isEmpty)
  let local_global_mapping := fillLocalToGlobalMap process_mesh
  match fillLocalNodeList nodeList local_global_mapping with
  | none => none
  | some local_nodes =>
    let pm1 := if useLocalNodalConnectivity then
        reorderLocalMesh process_mesh local_global_mapping
      else process_mesh
    let l2g := if useZeroBasedIndexing then
        local_global_mapping.map (fun x => x - 1)
      else local_global_mapping
    let nodes := if useZeroBasedIndexing then
        local_nodes.map (fun n => { n with id := n.id - 1 })
      else local_nodes
    let pm2 := if useZeroBasedIndexing then
        pm1.map (fun kv => (kv.1, kv.2.map ElementData.convertToZeroBasedIndexing))
      else pm1
    writeInJsonFormat interfaceElementMap pm2 l2g nodes partition
      (decide (1 < number_of_partitions)) printIndices

/-- The field-wise relation between zero-based and one-based output stated by
the amended claim: node indices, element ids, connectivity entries and
local-to-global entries drop by one, while the coordinates and the whole
interface section (node ids, start offsets, total) are unchanged. -/
def zshiftOutput (out : JsonOutput) : JsonOutput :=
  { coordinates := out.coordinates,
    nodeIndices := out.nodeIndices.map (fun x => x - 1),
    elements := out.elements.map (fun grp =>
      (grp.1, grp.2.1.map (fun conn => conn.map (fun x => x - 1)),
        grp.2.2.map (fun x => x - 1))),
    localToGlobalMap := out.localToGlobalMap.map (fun x => x - 1),
    interfaceGroups := out.interfaceGroups,
    numInterfaceNodes := out.numInterfaceNodes }

end gmsh

namespace gmsh

/-! ## Claims C4 and C8 -/

/-- C4 (code bug evidence): the mesh format defines element type id 20
(`TRIANGLE9`) as the 9-node triangle, yet the catalog returns a node count of
19 for it, while every other known id is mapped and ids outside the known set
are rejected. -/
theorem mapElementData_triangle9_returns_19 :
    mapElementData 20 = some 19 ∧
    (∀ t ∈ knownElementTypeIds, (mapElementData t).isSome = true) ∧
    mapElementData 32 = none ∧ mapElementData 0 = none := by
  refine ⟨rfl, ?_, rfl, rfl⟩
  decide

/-- C8: parsing the `$MeshFormat` record fails with the unsupported-version
error exactly when the declared version is below 2.2, and any declared version
of 2.2 or greater is accepted. -/
theorem checkSupportedGmsh_fails_iff_below_2_2 (gmshVersion : ℚ) :
    ((∃ msg, checkSupportedGmsh gmshVersion = Except.error msg) ↔ gmshVersion < 22 / 10) ∧
    (checkSupportedGmsh gmshVersion = Except.ok () ↔ 22 / 10 ≤ gmshVersion) := by
  unfold checkSupportedGmsh
  constructor
  · constructor
    · rintro ⟨msg, hmsg⟩
      by_contra hlt
      rw [if_neg hlt] at hmsg
      exact Except.noConfusion hmsg
    · intro hlt
      exact ⟨"GmshVersion is not supported", if_pos hlt⟩
  · constructor
    · intro hok
      by_contra hle
      rw [not_le] at hle
      rw [if_pos hle] at hok
      exact Except.noConfusion hok
    · intro hle
      rw [if_neg (not_lt.mpr hle)]

/-! ## Ordered-map helper lemmas -/

theorem meshKeyLt_ne {p q : String × Int} (h : meshKeyLt p q) : p ≠ q := by
  rcases h with h1 | ⟨h1, h2⟩
  · intro hpq
    rw [hpq] at h1
    exact lt_irrefl _ h1
  · intro hpq
    rw [hpq] at h2
    exact lt_irrefl _ h2

theorem meshKeyLt_trans {p q r : String × Int} (h1 : meshKeyLt p q) (h2 : meshKeyLt q r) :
    meshKeyLt p r := by
  rcases h1 with ha | ⟨ha, hb⟩ <;> rcases h2 with hc | ⟨hc, hd⟩
  · exact Or.inl (lt_trans ha hc)
  · exact Or.inl (by rw [← hc]; exact ha)
  · exact Or.inl (by rw [ha]; exact hc)
  · exact Or.inr ⟨ha.trans hc, lt_trans hb hd⟩

theorem meshLookup_eq_none {m : Mesh} {key : String × Int}
    (h : ∀ kv ∈ m, key ≠ kv.1) : meshLookup m key = none := by
  induction m with
  | nil => rfl
  | cons kv rest ih =>
    obtain ⟨k, v⟩ := kv
    simp only [meshLookup]
    rw [if_neg (h (k, v) (List.mem_cons_self _ _))]
    exact ih fun kv hkv => h kv (List.mem_cons_of_mem _ hkv)

theorem meshLookup_meshInsert (m : Mesh) (key : String × Int) (e : ElementData)
    (hkeys : (m.map Prod.fst).Pairwise meshKeyLt) :
    meshLookup (meshInsert m key e) key =
      some ((meshLookup m key).getD [] ++ [e]) := by
  induction m with
  | nil => simp [meshInsert, meshLookup]
  | cons kv rest ih =>
    obtain ⟨k, v⟩ := kv
    simp only [List.map_cons, List.pairwise_cons] at hkeys
    by_cases hk : key = k
    · subst hk
      simp [meshInsert, meshLookup]
    · by_cases hlt : meshKeyLt key k
      · have hrest : meshLookup rest key = none := by
          refine meshLookup_eq_none fun kv hkv => ?_
          exact meshKeyLt_ne
            (meshKeyLt_trans hlt (hkeys.1 kv.1 (List.mem_map_of_mem Prod.fst hkv)))
        simp [meshInsert, if_neg hk, if_pos hlt, meshLookup, hrest, hk]
      · simp only [meshInsert, if_neg hk, if_neg hlt, meshLookup]
        exact ih hkeys.2

theorem mapDefaultIndex_of_none {m : List (Int × String)} {key : Int}
    (h : pgmFind m key = none) :
    (mapDefaultIndex m key).2 = "" ∧
      pgmFind (mapDefaultIndex m key).1 key = some "" := by
  induction m with
  | nil => exact ⟨rfl, by simp [mapDefaultIndex, pgmFind]⟩
  | cons kv rest ih =>
    obtain ⟨k, v⟩ := kv
    simp only [pgmFind] at h
    by_cases hk : key = k
    · rw [if_pos hk] at h
      exact absurd h (by simp)
    · rw [if_neg hk] at h
      by_cases hlt : key < k
      · constructor
        · simp [mapDefaultIndex, if_neg hk, if_pos hlt]
        · simp [mapDefaultIndex, if_neg hk, if_pos hlt, pgmFind]
      · have hr := ih h
        constructor
        · simp only [mapDefaultIndex, if_neg hk, if_neg hlt]
          exact hr.1
        · simp only [mapDefaultIndex, if_neg hk, if_neg hlt, pgmFind]
          exact hr.2

theorem processElement_number_of_partitions (s : AssemblyState) (e : ElementData) :
    (processElement s e).number_of_partitions =
      max e.maxProcessId s.number_of_partitions := rfl

theorem processElement_meshes (s : AssemblyState) (e : ElementData) :
    (processElement s e).meshes =
      meshInsert s.meshes
        ((mapDefaultIndex s.physicalGroupMap (e.tags.getD 0 0)).2, e.elementTypeId) e := rfl

theorem processElement_physicalGroupMap (s : AssemblyState) (e : ElementData) :
    (processElement s e).physicalGroupMap =
      (mapDefaultIndex s.physicalGroupMap (e.tags.getD 0 0)).1 := rfl

/-! ## Claim C1 -/

/-- C1 (counterexample): with physical-group map containing only id 1, the raw
element with physical id 7 is assembled without any error and is stored in the
mesh under the fabricated empty group name, so assembly does not fail with
UnknownPhysicalGroup. -/
theorem unknownPhysicalGroup_counterexample :
    meshLookup
      (processElement
        { physicalGroupMap := [(1, "body")], meshes := [],
          interfaceElementMap := [], number_of_partitions := 1 }
        { id := 1, elementTypeId := 2, tags := [7, 0], nodalConnectivity := [1, 2, 3] }).meshes
      ("", 2) =
    some [{ id := 1, elementTypeId := 2, tags := [7, 0], nodalConnectivity := [1, 2, 3] }] := by
  rfl

/-- C1 (amended): for every raw element whose physical-group id has no entry in
the physical-group map, assembly does not fail; the element is silently added
to the mesh bucket keyed by the default-constructed empty group name, and
`operator[]` inserts the fabricated mapping `physicalId to empty name` into the
physical-group map. -/
theorem unknownPhysicalGroup_amended (s : AssemblyState) (e : ElementData)
    (hkeys : (s.meshes.map Prod.fst).Pairwise meshKeyLt)
    (h : pgmFind s.physicalGroupMap (e.tags.getD 0 0) = none) :
    meshLookup (processElement s e).meshes ("", e.elementTypeId) =
      some ((meshLookup s.meshes ("", e.elementTypeId)).getD [] ++ [e]) ∧
    pgmFind (processElement s e).physicalGroupMap (e.tags.getD 0 0) = some "" := by
  have hmd := mapDefaultIndex_of_none h
  constructor
  · rw [processElement_meshes, hmd.1]
    exact meshLookup_meshInsert _ _ _ hkeys
  · rw [processElement_physicalGroupMap]
    exact hmd.2

/-- C1 witness: the amended statement evaluated on the concrete element with
unknown physical id 7 against a map containing only id 1. -/
theorem unknownPhysicalGroup_amended_witness :
    meshLookup
      (processElement
        { physicalGroupMap := [(1, "body")], meshes := [],
          interfaceElementMap := [], number_of_partitions := 1 }
        { id := 1, elementTypeId := 2, tags := [7, 0], nodalConnectivity := [1, 2, 3] }).meshes
      ("", 2) =
      some ((meshLookup
        ({ physicalGroupMap := [(1, "body")], meshes := [],
           interfaceElementMap := [], number_of_partitions := 1 } : AssemblyState).meshes
        ("", 2)).getD [] ++
        [{ id := 1, elementTypeId := 2, tags := [7, 0], nodalConnectivity := [1, 2, 3] }]) ∧
    pgmFind
      (processElement
        { physicalGroupMap := [(1, "body")], meshes := [],
          interfaceElementMap := [], number_of_partitions := 1 }
        { id := 1, elementTypeId := 2, tags := [7, 0], nodalConnectivity := [1, 2, 3] }).physicalGroupMap
      7 = some "" := by
  exact unknownPhysicalGroup_amended _ _ (List.Pairwise.nil) rfl

/-! ## Claim C10 -/

theorem assembleElements_append (pgm : List (Int × String))
    (es : List ElementData) (e : ElementData) :
    assembleElements pgm (es ++ [e]) = processElement (assembleElements pgm es) e := by
  simp [assembleElements, List.foldl_append]

theorem foldl_processElement_mono (es : List ElementData) :
    ∀ s : AssemblyState,
      s.number_of_partitions ≤ (es.foldl processElement s).number_of_partitions := by
  induction es with
  | nil => intro s; exact le_refl _
  | cons e rest ih =>
    intro s
    refine le_trans ?_ (ih (processElement s e))
    rw [processElement_number_of_partitions]
    exact le_max_right _ _

/-- C10: the partition count reported by `numberOfPartitions()` is at least 1
for every input (including no elements at all), assembling one more element
never decreases it, and each element raises it exactly to the maximum of its
own maximum process id and the previous count. -/
theorem numberOfPartitions_ge_one_and_monotone :
    (∀ (pgm : List (Int × String)) (es : List ElementData),
        1 ≤ (assembleElements pgm es).number_of_partitions) ∧
    (∀ (pgm : List (Int × String)) (es : List ElementData) (e : ElementData),
        (assembleElements pgm es).number_of_partitions ≤
          (assembleElements pgm (es ++ [e])).number_of_partitions) ∧
    (∀ (pgm : List (Int × String)) (es : List ElementData) (e : ElementData),
        (assembleElements pgm (es ++ [e])).number_of_partitions =
          max e.maxProcessId (assembleElements pgm es).number_of_partitions) := by
  refine ⟨?_, ?_, ?_⟩
  · intro pgm es
    exact foldl_processElement_mono es _
  · intro pgm es e
    rw [assembleElements_append, processElement_number_of_partitions]
    exact le_max_right _ _
  · intro pgm es e
    rw [assembleElements_append, processElement_number_of_partitions]

/-! ## Sorted dedup and lower-bound lemmas -/

theorem map_eq_self_of {α : Type _} {l : List α} {f : α → α} (h : ∀ x ∈ l, f x = x) :
    l.map f = l := by
  induction l with
  | nil => rfl
  | cons a t ih =>
    rw [List.map_cons, h a (List.mem_cons_self _ _),
      ih fun x hx => h x (List.mem_cons_of_mem _ hx)]

theorem uniqueAdjacent_cons_same (a : Int) (rest : List Int) :
    uniqueAdjacent (a :: a :: rest) = uniqueAdjacent (a :: rest) := by
  show (if a = a then uniqueAdjacent (a :: rest) else a :: uniqueAdjacent (a :: rest)) =
    uniqueAdjacent (a :: rest)
  rw [if_pos rfl]

theorem uniqueAdjacent_cons_ne {a b : Int} (h : a ≠ b) (rest : List Int) :
    uniqueAdjacent (a :: b :: rest) = a :: uniqueAdjacent (b :: rest) := by
  show (if a = b then uniqueAdjacent (b :: rest) else a :: uniqueAdjacent (b :: rest)) =
    a :: uniqueAdjacent (b :: rest)
  rw [if_neg h]

theorem mem_uniqueAdjacent {x : Int} : ∀ {l : List Int}, x ∈ uniqueAdjacent l ↔ x ∈ l := by
  intro l
  induction l with
  | nil => simp [uniqueAdjacent]
  | cons a t ih =>
    cases t with
    | nil => simp [uniqueAdjacent]
    | cons b rest =>
      by_cases hab : a = b
      · subst hab
        rw [uniqueAdjacent_cons_same, ih]
        simp only [List.mem_cons]
        tauto
      · rw [uniqueAdjacent_cons_ne hab]
        simp only [List.mem_cons]
        rw [List.mem_cons] at ih
        tauto

theorem sorted_uniqueAdjacent :
    ∀ {l : List Int}, l.Sorted (· ≤ ·) → (uniqueAdjacent l).Sorted (· < ·) := by
  intro l
  induction l with
  | nil => intro _; simp [uniqueAdjacent]
  | cons a t ih =>
    cases t with
    | nil => intro _; simp [uniqueAdjacent]
    | cons b rest =>
      intro hs
      rw [List.sorted_cons] at hs
      by_cases hab : a = b
      · subst hab
        rw [uniqueAdjacent_cons_same]
        exact ih hs.2
      · rw [uniqueAdjacent_cons_ne hab]
        rw [List.sorted_cons]
        refine ⟨?_, ih hs.2⟩
        intro y hy
        rw [mem_uniqueAdjacent] at hy
        have hay : a ≤ y := hs.1 y hy
        rcases List.mem_cons.mp hy with hyb | hyr
        · subst hyb
          exact lt_of_le_of_ne hay hab
        · have hb : a ≤ b := hs.1 b (List.mem_cons_self _ _)
          have hby : b ≤ y := (List.sorted_cons.mp hs.2).1 y hyr
          exact lt_of_lt_of_le (lt_of_le_of_ne hb hab) hby

theorem lowerBound_get {l : List Int} {x : Int} (hs : l.Sorted (· < ·)) (hx : x ∈ l) :
    l.get? (lowerBound l x) = some x := by
  induction l with
  | nil => cases hx
  | cons a t ih =>
    rw [List.sorted_cons] at hs
    by_cases hax : a < x
    · have hxa : x ≠ a := fun h => absurd (h ▸ hax) (lt_irrefl x)
      have hxt : x ∈ t := by
        rcases List.mem_cons.mp hx with h | h
        · exact absurd h hxa
        · exact h
      have : lowerBound (a :: t) x = lowerBound t x + 1 := by
        simp [lowerBound, List.takeWhile_cons, hax]
      rw [this]
      simpa using ih hs.2 hxt
    · have : lowerBound (a :: t) x = 0 := by
        simp [lowerBound, List.takeWhile_cons, hax]
      rw [this]
      have hxa : x = a := by
        rcases List.mem_cons.mp hx with h | h
        · exact h
        · exact absurd (hs.1 x h) hax
      simp [hxa]

theorem lowerBound_getD {l : List Int} {x : Int} (hs : l.Sorted (· < ·)) (hx : x ∈ l) :
    l.getD (lowerBound l x) 0 = x := by
  have h := lowerBound_get hs hx
  rw [List.getD_eq_getElem?_getD, ← List.get?_eq_getElem?, h]
  rfl

theorem mem_allConnectivity {process_mesh : Mesh}
    {kv : (String × Int) × List ElementData} {e : ElementData} {c : Int}
    (hkv : kv ∈ process_mesh) (he : e ∈ kv.2) (hc : c ∈ e.nodalConnectivity) :
    c ∈ allConnectivity process_mesh := by
  unfold allConnectivity
  rw [List.mem_flatten]
  refine ⟨(kv.2.map (fun e => e.nodalConnectivity)).flatten, List.mem_map_of_mem _ hkv, ?_⟩
  rw [List.mem_flatten]
  exact ⟨e.nodalConnectivity, List.mem_map_of_mem _ he, hc⟩

theorem sorted_fillLocalToGlobalMap (process_mesh : Mesh) :
    (fillLocalToGlobalMap process_mesh).Sorted (· < ·) := by
  unfold fillLocalToGlobalMap
  exact sorted_uniqueAdjacent (List.sorted_insertionSort _ _)

theorem mem_fillLocalToGlobalMap {process_mesh : Mesh} {c : Int}
    (hc : c ∈ allConnectivity process_mesh) : c ∈ fillLocalToGlobalMap process_mesh := by
  unfold fillLocalToGlobalMap
  rw [mem_uniqueAdjacent]
  exact (List.perm_insertionSort _ _).mem_iff.mpr hc

/-! ## Claim C5 -/

/-- C5: for every partition's filtered mesh, rewriting each connectivity entry
to its one-based rank in the local-to-global mapping and then reading rank `r`
back as `localToGlobalMap[r - 1]` reproduces the original global connectivity
of every element of every bucket exactly. -/
theorem localOrdering_roundTrip (process_mesh : Mesh) :
    remapThroughMapping (fillLocalToGlobalMap process_mesh)
      (reorderLocalMesh process_mesh (fillLocalToGlobalMap process_mesh)) = process_mesh := by
  have hs := sorted_fillLocalToGlobalMap process_mesh
  unfold remapThroughMapping reorderLocalMesh
  rw [List.map_map]
  refine map_eq_self_of ?_
  intro kv hkv
  obtain ⟨key, elems⟩ := kv
  simp only [Function.comp_apply, List.map_map, Prod.mk.injEq, true_and]
  refine map_eq_self_of ?_
  intro e he
  obtain ⟨eid, ety, etags, econn⟩ := e
  simp only [Function.comp_apply, List.map_map, ElementData.mk.injEq, true_and]
  refine map_eq_self_of ?_
  intro c hc
  simp only [Function.comp_apply, add_sub_cancel_right, Int.toNat_natCast]
  exact lowerBound_getD hs (mem_fillLocalToGlobalMap (mem_allConnectivity hkv he hc))

/-! ## Claim C9 -/

theorem fillLocalNodeList_oob {nodeList : List NodeData} :
    ∀ {l2g : List Int} {g : Int}, g ∈ l2g → (nodeList.length : Int) < g →
      fillLocalNodeList nodeList l2g = none := by
  intro l2g
  induction l2g with
  | nil => intro g hg _; cases hg
  | cons g0 rest ih =>
    intro g hg hgn
    rcases List.mem_cons.mp hg with h0 | hr
    · subst h0
      have hg1 : (1 : Int) ≤ g := by
        have h0 : (0 : Int) ≤ (nodeList.length : Int) := Int.ofNat_nonneg _
        omega
      have hnone : nodeList.get? (g.toNat - 1) = none := by
        rw [List.get?_eq_getElem?, List.getElem?_eq_none]
        omega
      simp only [fillLocalNodeList, if_pos hg1, hnone]
    · have hres := ih hr hgn
      simp only [fillLocalNodeList, hres]
      cases hval : (if 1 ≤ g0 then nodeList.get? (g0.toNat - 1) else none) <;> rfl

/-- C9: gathering a partition's local node records is positional: for mapping
entry `g` it returns the node parsed at position `g - 1` of the global node
list (first conjunct); the returned record carries id `g` when the parsed node
ids are exactly 1..N in file order (second conjunct); and the access leaves the
node list bounds whenever a referenced global node id exceeds the number of
parsed nodes (third conjunct). -/
theorem fillLocalNodeList_positional (nodeList : List NodeData) (l2g : List Int) :
    ((∀ g ∈ l2g, 1 ≤ g ∧ g.toNat ≤ nodeList.length) →
      fillLocalNodeList nodeList l2g =
        some (l2g.map fun g => nodeList.getD (g.toNat - 1) { id := 0, coordinates := [] })) ∧
    ((∀ g ∈ l2g, 1 ≤ g ∧ g.toNat ≤ nodeList.length) →
      (∀ k, k < nodeList.length →
        (nodeList.getD k { id := 0, coordinates := [] }).id = (k : Int) + 1) →
      ∃ out, fillLocalNodeList nodeList l2g = some out ∧
        out.map (fun nd => nd.id) = l2g) ∧
    ((∃ g ∈ l2g, (nodeList.length : Int) < g) →
      fillLocalNodeList nodeList l2g = none) := by
  have hpos : (∀ g ∈ l2g, 1 ≤ g ∧ g.toNat ≤ nodeList.length) →
      fillLocalNodeList nodeList l2g =
        some (l2g.map fun g => nodeList.getD (g.toNat - 1) { id := 0, coordinates := [] }) := by
    induction l2g with
    | nil => intro _; rfl
    | cons g rest ih =>
      intro h
      obtain ⟨hg1, hgn⟩ := h g (List.mem_cons_self _ _)
      have hlt : g.toNat - 1 < nodeList.length := by
        have h1 : 1 ≤ g.toNat := by omega
        omega
      simp only [fillLocalNodeList, if_pos hg1]
      rw [List.get?_eq_getElem?, List.getElem?_eq_getElem hlt,
        ih (fun g hg => h g (List.mem_cons_of_mem _ hg))]
      simp [List.getD_eq_getElem?_getD, List.getElem?_eq_getElem hlt]
  refine ⟨hpos, ?_, ?_⟩
  · intro h hid
    refine ⟨_, hpos h, ?_⟩
    rw [List.map_map]
    refine map_eq_self_of ?_
    intro g hg
    obtain ⟨hg1, hgn⟩ := h g hg
    have hlt : g.toNat - 1 < nodeList.length := by
      have h1 : 1 ≤ g.toNat := by omega
      omega
    simp only [Function.comp_apply]
    rw [hid _ hlt]
    omega
  · intro h
    obtain ⟨g, hg, hgn⟩ := h
    exact fillLocalNodeList_oob hg hgn

/-- C9 witness: the positional statement evaluated on a concrete two-node list
with mapping `[2, 1]`, and the out-of-bounds statement on a one-node list with
mapping `[2]`. -/
theorem fillLocalNodeList_positional_witness :
    fillLocalNodeList [{ id := 1, coordinates := [] }, { id := 2, coordinates := [] }] [2, 1] =
      some (([2, 1] : List Int).map fun g =>
        [({ id := 1, coordinates := [] } : NodeData),
         { id := 2, coordinates := [] }].getD (g.toNat - 1) { id := 0, coordinates := [] }) ∧
    (∃ out,
      fillLocalNodeList [{ id := 1, coordinates := [] }, { id := 2, coordinates := [] }] [2, 1] =
        some out ∧ out.map (fun nd => nd.id) = [2, 1]) ∧
    fillLocalNodeList [{ id := 1, coordinates := [] }] [2] = none := by
  refine ⟨(fillLocalNodeList_positional _ [2, 1]).1 (by decide),
    (fillLocalNodeList_positional _ [2, 1]).2.1 (by decide) (by decide),
    (fillLocalNodeList_positional
      [{ id := 1, coordinates := [] }] [2]).2.2 ⟨2, by decide, by decide⟩⟩

/-! ## Interface reconciliation lemmas -/

theorem reconcileAll_none {full : IMap} {a b : Int} {v : List Int}
    (hab : a < b) (hfind : imapFind full (b, a) = none) :
    ∀ {m : IMap} {s : Int}, ((a, b), v) ∈ m → reconcileAll full m s = none := by
  intro m
  induction m with
  | nil => intro s h; cases h
  | cons kv rest ih =>
    intro s hmem
    rcases List.mem_cons.mp hmem with h0 | hr
    · subst h0
      simp only [reconcileAll, if_pos hab, hfind]
    · obtain ⟨⟨mId, sId⟩, v1⟩ := kv
      by_cases hms : mId < sId
      · cases hf : imapFind full (sId, mId) with
        | none => simp only [reconcileAll, if_pos hms, hf]
        | some v2 =>
          simp only [reconcileAll, if_pos hms, hf]
          rw [ih hr]
      · simp only [reconcileAll, if_neg hms]
        exact ih hr

theorem reconcileAll_isSome {full : IMap} :
    ∀ {m : IMap} {s : Int},
      (∀ kv ∈ m, kv.1.1 < kv.1.2 → (imapFind full (kv.1.2, kv.1.1)).isSome = true) →
      (reconcileAll full m s).isSome = true := by
  intro m
  induction m with
  | nil => intro s _; rfl
  | cons kv rest ih =>
    intro s h
    obtain ⟨⟨mId, sId⟩, v1⟩ := kv
    by_cases hms : mId < sId
    · have hfsome := h _ (List.mem_cons_self _ _) hms
      cases hf : imapFind full (sId, mId) with
      | none => rw [hf] at hfsome; cases hfsome
      | some v2 =>
        have hrest := @ih (s + ((sinter v1 v2).length : Int))
          (fun kv hkv => h kv (List.mem_cons_of_mem _ hkv))
        obtain ⟨⟨blocks, total⟩, hbt⟩ := Option.isSome_iff_exists.mp hrest
        simp only [reconcileAll, if_pos hms, hf, hbt, Option.isSome_some]
    · simp only [reconcileAll, if_neg hms]
      exact ih (fun kv hkv => h kv (List.mem_cons_of_mem _ hkv))

theorem interfaceSection_eq_reconcileAll (full : IMap) (p : Int) :
    ∀ (m : IMap) (s : Int),
      interfaceSection full p m s =
        (reconcileAll full m s).map (fun bt => (bt.1.filterMap (emitFor p), bt.2)) := by
  intro m
  induction m with
  | nil => intro s; rfl
  | cons kv rest ih =>
    intro s
    obtain ⟨⟨mId, sId⟩, v1⟩ := kv
    by_cases hms : mId < sId
    · cases hf : imapFind full (sId, mId) with
      | none => simp only [interfaceSection, reconcileAll, if_pos hms, hf, Option.map_none']
      | some v2 =>
        cases hrec : reconcileAll full rest (s + ((sinter v1 v2).length : Int)) with
        | none =>
          simp only [interfaceSection, reconcileAll, if_pos hms, hf, hrec, ih,
            Option.map_none']
        | some bt =>
          obtain ⟨blocks, total⟩ := bt
          by_cases hp : p = mId - 1 ∨ p = sId - 1
          · simp only [interfaceSection, reconcileAll, if_pos hms, hf, hrec, ih,
              Option.map_some', List.filterMap_cons, emitFor, if_pos hp]
          · simp only [interfaceSection, reconcileAll, if_pos hms, hf, hrec, ih,
              Option.map_some', List.filterMap_cons, emitFor, if_neg hp]
    · simp only [interfaceSection, reconcileAll, if_neg hms]
      exact ih s

theorem interfaceSection_keys {full : IMap} {p : Int} :
    ∀ {m : IMap} {s : Int} {groups : List InterfaceGroup} {total : Int},
      interfaceSection full p m s = some (groups, total) →
      ∀ g ∈ groups, (g.master, g.slave) ∈ m.map Prod.fst := by
  intro m
  induction m with
  | nil =>
    intro s groups total h g hg
    simp only [interfaceSection, Option.some.injEq, Prod.mk.injEq] at h
    obtain ⟨h1, h2⟩ := h
    subst h1
    cases hg
  | cons kv rest ih =>
    intro s groups total h g hg
    obtain ⟨⟨mId, sId⟩, v1⟩ := kv
    by_cases hms : mId < sId
    · cases hf : imapFind full (sId, mId) with
      | none =>
        simp only [interfaceSection, if_pos hms, hf] at h
        exact Option.noConfusion h
      | some v2 =>
        cases hrec : interfaceSection full p rest (s + ((sinter v1 v2).length : Int)) with
        | none =>
          simp only [interfaceSection, if_pos hms, hf, hrec] at h
          exact Option.noConfusion h
        | some gt =>
          obtain ⟨gs, t⟩ := gt
          by_cases hp : p = mId - 1 ∨ p = sId - 1
          · simp only [interfaceSection, if_pos hms, hf, hrec, if_pos hp,
              Option.some.injEq, Prod.mk.injEq] at h
            obtain ⟨h1, h2⟩ := h
            subst h1
            rcases List.mem_cons.mp hg with hghead | hgtail
            · subst hghead
              exact List.mem_cons_self _ _
            · exact List.mem_cons_of_mem _ (ih hrec g hgtail)
          · simp only [interfaceSection, if_pos hms, hf, hrec, if_neg hp,
              Option.some.injEq, Prod.mk.injEq] at h
            obtain ⟨h1, h2⟩ := h
            subst h1
            exact List.mem_cons_of_mem _ (ih hrec g hg)
    · simp only [interfaceSection, if_neg hms] at h
      exact List.mem_cons_of_mem _ (ih h g hg)

/-! ## Claim C2 -/

/-- C2 (counterexample): an interface map holding only the ordered pair (2, 1)
whose complementary pair (1, 2) is absent is reconciled without any error: the
loop completes, reports no interface group at all, and leaves the counter at
zero, so the asymmetric pair is silently dropped rather than reported. -/
theorem asymmetricInterface_counterexample :
    interfaceSection [((2, 1), [5])] 0 [((2, 1), [5])] 0 = some ([], 0) := by
  rfl

/-- C2 (amended): a missing complementary pair is fatal only for keys
`(a, b)` with `a < b`, where the `std::map::at` lookup of `(b, a)` throws
(embedded as `none`); an ordered pair `(a, b)` with `a > b` whose complement
is absent is silently skipped: when every `a < b` key has its complement the
loop succeeds, and no emitted group ever names a pair absent from the map. -/
theorem asymmetricInterface_amended (full : IMap) (processId : Int) :
    (∀ a b v, ((a, b), v) ∈ full → a < b → imapFind full (b, a) = none →
      interfaceSection full processId full 0 = none) ∧
    ((∀ kv ∈ full, kv.1.1 < kv.1.2 → (imapFind full (kv.1.2, kv.1.1)).isSome = true) →
      ∃ groups total, interfaceSection full processId full 0 = some (groups, total) ∧
        ∀ b a, (b, a) ∉ full.map Prod.fst →
          ∀ g ∈ groups, ¬(g.master = b ∧ g.slave = a)) := by
  constructor
  · intro a b v hmem hab hfind
    rw [interfaceSection_eq_reconcileAll, reconcileAll_none hab hfind hmem]
    rfl
  · intro hsym
    obtain ⟨⟨blocks, total⟩, hbt⟩ :=
      Option.isSome_iff_exists.mp (@reconcileAll_isSome full full 0 hsym)
    have hgt : interfaceSection full processId full 0 =
        some (blocks.filterMap (emitFor processId), total) := by
      rw [interfaceSection_eq_reconcileAll, hbt]
      rfl
    refine ⟨blocks.filterMap (emitFor processId), total, hgt, ?_⟩
    intro b a hnotin g hg hgba
    exact hnotin (hgba.1 ▸ hgba.2 ▸ interfaceSection_keys hgt g hg)

/-- C2 witness: the amended statement evaluated concretely; an orphan (1, 2)
key makes the loop fail, while a map holding only the orphan (2, 1) key
succeeds and emits nothing for the pair. -/
theorem asymmetricInterface_amended_witness :
    interfaceSection [((1, 2), [3])] 0 [((1, 2), [3])] 0 = none ∧
    (∃ groups total,
      interfaceSection [((2, 1), [5])] 4 [((2, 1), [5])] 0 = some (groups, total) ∧
      ∀ b a, (b, a) ∉ ([((2, 1), [5])] : IMap).map Prod.fst →
        ∀ g ∈ groups, ¬(g.master = b ∧ g.slave = a)) := by
  constructor
  · exact (asymmetricInterface_amended [((1, 2), [3])] 0).1 1 2 [3]
      (List.mem_cons_self _ _) (by decide) rfl
  · exact (asymmetricInterface_amended [((2, 1), [5])] 4).2 (by decide)

/-! ## Claim C3 -/

theorem reconcileAll_numbering (full : IMap) :
    ∀ (m : IMap) (s : Int),
      (∀ kv ∈ m, kv.1.1 < kv.1.2 → (imapFind full (kv.1.2, kv.1.1)).isSome = true) →
      (∀ kv ∈ m, List.Sorted (· < ·) kv.2) →
      ∃ (rs : List IfaceBlock) (count : Nat),
        reconcileAll full m s = some (rs, s + (count : Int)) ∧
        rs.map (fun blk => (blk.master, blk.slave)) =
          (m.map Prod.fst).filter (fun k => decide (k.1 < k.2)) ∧
        (∀ blk ∈ rs, List.Sorted (· < ·) blk.nodeIds) ∧
        (rs.map fun blk =>
            (List.range blk.nodeIds.length).map
              (fun (j : Nat) => blk.globalStartId + (j : Int))).flatten =
          (List.range count).map (fun (j : Nat) => s + (j : Int)) := by
  intro m
  induction m with
  | nil =>
    intro s _ _
    exact ⟨[], 0, by simp [reconcileAll], by simp, by simp, by simp⟩
  | cons kv rest ih =>
    intro s hsym hvals
    obtain ⟨⟨mId, sId⟩, v1⟩ := kv
    by_cases hms : mId < sId
    · have hfsome := hsym _ (List.mem_cons_self _ _) hms
      cases hf : imapFind full (sId, mId) with
      | none => rw [hf] at hfsome; cases hfsome
      | some v2 =>
        obtain ⟨rs', count', heq, hkeys, hsorted, hranges⟩ :=
          ih (s + ((sinter v1 v2).length : Int))
            (fun kv hkv => hsym kv (List.mem_cons_of_mem _ hkv))
            (fun kv hkv => hvals kv (List.mem_cons_of_mem _ hkv))
        refine ⟨{ master := mId, slave := sId, nodeIds := sinter v1 v2,
                  globalStartId := s } :: rs',
          (sinter v1 v2).length + count', ?_, ?_, ?_, ?_⟩
        · have hsum : s + ((sinter v1 v2).length : Int) + (count' : Int) =
              s + (((sinter v1 v2).length + count' : Nat) : Int) := by
            push_cast
            ring
          simp only [reconcileAll, if_pos hms, hf, heq, hsum]
        · simp only [List.map_cons]
          rw [List.filter_cons_of_pos (by simp [hms]), hkeys]
        · intro blk hblk
          rcases List.mem_cons.mp hblk with hb0 | hbr
          · subst hb0
            exact (hvals _ (List.mem_cons_self _ _)).filter _
          · exact hsorted blk hbr
        · simp only [List.map_cons, List.flatten_cons]
          rw [List.range_add, List.map_append, List.map_map, hranges]
          congr 1
          refine List.map_congr_left ?_
          intro j hj
          simp only [Function.comp_apply]
          push_cast
          ring
    · obtain ⟨rs', count', heq, hkeys, hsorted, hranges⟩ :=
        ih s (fun kv hkv => hsym kv (List.mem_cons_of_mem _ hkv))
          (fun kv hkv => hvals kv (List.mem_cons_of_mem _ hkv))
      refine ⟨rs', count', ?_, ?_, hsorted, hranges⟩
      · simp only [reconcileAll, if_neg hms]
        exact heq
      · simp only [List.map_cons]
        rw [List.filter_cons_of_neg (by simp [hms]), hkeys]

/-- C3: the global interface numbering processes the reconciled pairs in
ascending lexicographic key order, assigns within each pair ascending node
ids, starts the counter at 0 and carries it across pairs, so the indices
`globalStartId + j` taken over all reconciled pairs in order form exactly the
gap-free range `[0, totalInterfaceNodes)` with no index reused, and the final
counter is the total exposed as NumInterfaceNodes in every partition's
output. -/
theorem globalInterfaceNumbering (m : IMap)
    (hkeys : (m.map Prod.fst).Pairwise pairLt)
    (hvals : ∀ kv ∈ m, List.Sorted (· < ·) kv.2)
    (hsym : ∀ kv ∈ m, kv.1.1 < kv.1.2 → (imapFind m (kv.1.2, kv.1.1)).isSome = true) :
    ∃ rs total, reconcileAll m m 0 = some (rs, total) ∧
      (rs.map fun blk => (blk.master, blk.slave)).Pairwise pairLt ∧
      rs.map (fun blk => (blk.master, blk.slave)) =
        (m.map Prod.fst).filter (fun k => decide (k.1 < k.2)) ∧
      (∀ blk ∈ rs, List.Sorted (· < ·) blk.nodeIds) ∧
      (0 : Int) ≤ total ∧
      (rs.map fun blk =>
          (List.range blk.nodeIds.length).map
            (fun (j : Nat) => blk.globalStartId + (j : Int))).flatten =
        (List.range total.toNat).map (fun (j : Nat) => (j : Int)) ∧
      (∀ p, ∃ groups, interfaceSection m p m 0 = some (groups, total)) := by
  obtain ⟨rs, count, heq, hk, hsorted, hranges⟩ := reconcileAll_numbering m m 0 hsym hvals
  rw [zero_add] at heq
  refine ⟨rs, (count : Int), heq, ?_, hk, hsorted, Int.ofNat_nonneg _, ?_, ?_⟩
  · rw [hk]
    exact List.Pairwise.sublist (List.filter_sublist _) hkeys
  · rw [hranges, Int.toNat_natCast]
    refine List.map_congr_left ?_
    intro j hj
    exact zero_add _
  · intro p
    rw [interfaceSection_eq_reconcileAll, heq]
    exact ⟨_, rfl⟩

/-- C3 witness: the numbering statement evaluated on the concrete symmetric
two-pair interface map with one-sided sets sharing node 4. -/
theorem globalInterfaceNumbering_witness :
    ∃ rs total,
      reconcileAll [((1, 2), [4, 7]), ((2, 1), [4, 9])]
        [((1, 2), [4, 7]), ((2, 1), [4, 9])] 0 = some (rs, total) ∧
      (rs.map fun blk => (blk.master, blk.slave)).Pairwise pairLt ∧
      rs.map (fun blk => (blk.master, blk.slave)) =
        (([((1, 2), [4, 7]), ((2, 1), [4, 9])] : IMap).map Prod.fst).filter
          (fun k => decide (k.1 < k.2)) ∧
      (∀ blk ∈ rs, List.Sorted (· < ·) blk.nodeIds) ∧
      (0 : Int) ≤ total ∧
      (rs.map fun blk =>
          (List.range blk.nodeIds.length).map
            (fun (j : Nat) => blk.globalStartId + (j : Int))).flatten =
        (List.range total.toNat).map (fun (j : Nat) => (j : Int)) ∧
      (∀ p, ∃ groups,
        interfaceSection [((1, 2), [4, 7]), ((2, 1), [4, 9])] p
          [((1, 2), [4, 7]), ((2, 1), [4, 9])] 0 = some (groups, total)) :=
  globalInterfaceNumbering _ (by decide) (by decide) (by decide)

/-! ## Claim C7 -/

theorem reconcileAll_block {full : IMap} {a b : Int} {v1 v2 : List Int}
    (hab : a < b) (hfind : imapFind full (b, a) = some v2) :
    ∀ {m : IMap} {s : Int},
      (∀ kv ∈ m, kv.1.1 < kv.1.2 → (imapFind full (kv.1.2, kv.1.1)).isSome = true) →
      ((a, b), v1) ∈ m →
      ∃ rs total, reconcileAll full m s = some (rs, total) ∧
        ∃ blk ∈ rs, blk.master = a ∧ blk.slave = b ∧ blk.nodeIds = sinter v1 v2 := by
  intro m
  induction m with
  | nil => intro s _ h; cases h
  | cons kv rest ih =>
    intro s hsym hmem
    rcases List.mem_cons.mp hmem with h0 | hr
    · subst h0
      obtain ⟨⟨rs', total'⟩, hrec⟩ := Option.isSome_iff_exists.mp
        (@reconcileAll_isSome full rest (s + ((sinter v1 v2).length : Int))
          (fun kv hkv => hsym kv (List.mem_cons_of_mem _ hkv)))
      refine ⟨{ master := a, slave := b, nodeIds := sinter v1 v2,
                globalStartId := s } :: rs', total', ?_, ?_⟩
      · simp only [reconcileAll, if_pos hab, hfind, hrec]
      · exact ⟨_, List.mem_cons_self _ _, rfl, rfl, rfl⟩
    · obtain ⟨⟨mId, sId⟩, w1⟩ := kv
      by_cases hms : mId < sId
      · have hfsome := hsym _ (List.mem_cons_self _ _) hms
        cases hf : imapFind full (sId, mId) with
        | none => rw [hf] at hfsome; cases hfsome
        | some w2 =>
          obtain ⟨rs', total', hrec, blk, hblk, hprops⟩ :=
            @ih (s + ((sinter w1 w2).length : Int))
              (fun kv hkv => hsym kv (List.mem_cons_of_mem _ hkv)) hr
          refine ⟨{ master := mId, slave := sId, nodeIds := sinter w1 w2,
                    globalStartId := s } :: rs', total', ?_, ?_⟩
          · simp only [reconcileAll, if_pos hms, hf, hrec]
          · exact ⟨blk, List.mem_cons_of_mem _ hblk, hprops⟩
      · obtain ⟨rs', total', hrec, blk, hblk, hprops⟩ :=
          @ih s (fun kv hkv => hsym kv (List.mem_cons_of_mem _ hkv)) hr
        refine ⟨rs', total', ?_, blk, hblk, hprops⟩
        simp only [reconcileAll, if_neg hms]
        exact hrec

/-- C7: for every reconciled pair with `a < b`, the agreed node set is a
subset of both one-sided sets, and every agreed node appears in the interface
output of partition `a - 1` with sign value 1 (the lower-numbered master side)
and in the output of partition `b - 1` with sign value -1. -/
theorem interfaceSymmetry (m : IMap) (a b : Int) (v1 v2 : List Int) (n : Int)
    (hsym : ∀ kv ∈ m, kv.1.1 < kv.1.2 → (imapFind m (kv.1.2, kv.1.1)).isSome = true)
    (hmem : ((a, b), v1) ∈ m) (hab : a < b)
    (hfind : imapFind m (b, a) = some v2)
    (hn : n ∈ sinter v1 v2) :
    (n ∈ v1 ∧ n ∈ v2) ∧
    (∃ groups total, interfaceSection m (a - 1) m 0 = some (groups, total) ∧
      ∃ g ∈ groups, g.master = a ∧ g.slave = b ∧ g.value = 1 ∧ n ∈ g.nodeIds) ∧
    (∃ groups total, interfaceSection m (b - 1) m 0 = some (groups, total) ∧
      ∃ g ∈ groups, g.master = a ∧ g.slave = b ∧ g.value = -1 ∧ n ∈ g.nodeIds) := by
  obtain ⟨rs, total, hrec, blk, hblk, hm, hsl, hnodes⟩ :=
    @reconcileAll_block m a b v1 v2 hab hfind m 0 hsym hmem
  have hsubset : n ∈ v1 ∧ n ∈ v2 := by
    have hn1 := List.mem_filter.mp hn
    refine ⟨hn1.1, ?_⟩
    simpa using hn1.2
  refine ⟨hsubset, ?_, ?_⟩
  · have hsa : interfaceSection m (a - 1) m 0 =
        some (rs.filterMap (emitFor (a - 1)), total) := by
      rw [interfaceSection_eq_reconcileAll, hrec]
      rfl
    have hcond : a - 1 = blk.master - 1 ∨ a - 1 = blk.slave - 1 := Or.inl (by rw [hm])
    have hg : emitFor (a - 1) blk =
        some { master := blk.master, value := 1, slave := blk.slave,
               nodeIds := blk.nodeIds, globalStartId := blk.globalStartId } := by
      unfold emitFor
      rw [if_pos hcond, if_pos (by rw [hm])]
    refine ⟨_, total, hsa, _, List.mem_filterMap.mpr ⟨blk, hblk, hg⟩, hm, hsl, rfl, ?_⟩
    rw [hnodes]
    exact hn
  · have hsb : interfaceSection m (b - 1) m 0 =
        some (rs.filterMap (emitFor (b - 1)), total) := by
      rw [interfaceSection_eq_reconcileAll, hrec]
      rfl
    have hne : ¬(b - 1 = blk.master - 1) := by
      rw [hm]
      omega
    have hcond : b - 1 = blk.master - 1 ∨ b - 1 = blk.slave - 1 := Or.inr (by rw [hsl])
    have hg : emitFor (b - 1) blk =
        some { master := blk.master, value := -1, slave := blk.slave,
               nodeIds := blk.nodeIds, globalStartId := blk.globalStartId } := by
      unfold emitFor
      rw [if_pos hcond, if_neg hne]
    refine ⟨_, total, hsb, _, List.mem_filterMap.mpr ⟨blk, hblk, hg⟩, hm, hsl, rfl, ?_⟩
    rw [hnodes]
    exact hn

/-- C7 witness: the symmetry statement evaluated on the concrete symmetric
two-pair interface map, for agreed node 4 of the pair (1, 2). -/
theorem interfaceSymmetry_witness :
    ((4 : Int) ∈ ([4, 7] : List Int) ∧ (4 : Int) ∈ ([4, 9] : List Int)) ∧
    (∃ groups total,
      interfaceSection [((1, 2), [4, 7]), ((2, 1), [4, 9])] 0
        [((1, 2), [4, 7]), ((2, 1), [4, 9])] 0 = some (groups, total) ∧
      ∃ g ∈ groups, g.master = 1 ∧ g.slave = 2 ∧ g.value = 1 ∧ (4 : Int) ∈ g.nodeIds) ∧
    (∃ groups total,
      interfaceSection [((1, 2), [4, 7]), ((2, 1), [4, 9])] 1
        [((1, 2), [4, 7]), ((2, 1), [4, 9])] 0 = some (groups, total) ∧
      ∃ g ∈ groups, g.master = 1 ∧ g.slave = 2 ∧ g.value = -1 ∧ (4 : Int) ∈ g.nodeIds) := by
  have h := interfaceSymmetry [((1, 2), [4, 7]), ((2, 1), [4, 9])] 1 2 [4, 7] [4, 9] 4
    (by decide) (List.mem_cons_self _ _) (by decide) rfl (by decide)
  exact h

/-! ## Claim C6 -/

theorem coordinates_shift (nodes : List NodeData) :
    (nodes.map (fun n => { n with id := n.id - 1 })).map (fun node => node.coordinates) =
      nodes.map (fun node => node.coordinates) := by
  rw [List.map_map]
  rfl

theorem nodeIds_shift (nodes : List NodeData) :
    (nodes.map (fun n => { n with id := n.id - 1 })).map (fun node => node.id) =
      (nodes.map (fun node => node.id)).map (fun x => x - 1) := by
  rw [List.map_map, List.map_map]
  rfl

theorem elements_shift (pm : Mesh) (printIndices : Bool) :
    ((pm.map fun kv => (kv.1, kv.2.map ElementData.convertToZeroBasedIndexing)).map
        fun kv => (kv.1, kv.2.map (fun e => e.nodalConnectivity),
          if printIndices then kv.2.map (fun e => e.id) else [])) =
      ((pm.map fun kv => (kv.1, kv.2.map (fun e => e.nodalConnectivity),
          if printIndices then kv.2.map (fun e => e.id) else [])).map
        fun grp => (grp.1, grp.2.1.map (fun conn => conn.map (fun x => x - 1)),
          grp.2.2.map (fun x => x - 1))) := by
  rw [List.map_map, List.map_map]
  refine List.map_congr_left ?_
  intro kv hkv
  cases printIndices with
  | false =>
    simp [Function.comp, ElementData.convertToZeroBasedIndexing, List.map_map]
  | true =>
    simp [Function.comp, ElementData.convertToZeroBasedIndexing, List.map_map]

theorem writeInJsonFormat_zeroBased (imapp : IMap) (pm : Mesh) (l2g : List Int)
    (nodes : List NodeData) (p : Int) (dist printIndices : Bool) :
    ∀ {outOne : JsonOutput},
      writeInJsonFormat imapp pm l2g nodes p dist printIndices = some outOne →
      writeInJsonFormat imapp
        (pm.map (fun kv => (kv.1, kv.2.map ElementData.convertToZeroBasedIndexing)))
        (l2g.map (fun x => x - 1))
        (nodes.map (fun n => { n with id := n.id - 1 })) p dist printIndices
        = some (zshiftOutput outOne) := by
  intro outOne h
  cases dist with
  | false =>
    simp only [writeInJsonFormat, Bool.false_eq_true, if_false] at h
    obtain rfl := Option.some.inj h
    simp only [writeInJsonFormat, Bool.false_eq_true, if_false, zshiftOutput,
      Option.some.injEq]
    rw [JsonOutput.mk.injEq]
    refine ⟨coordinates_shift nodes, ?_, elements_shift pm printIndices, rfl, rfl, rfl⟩
    cases printIndices with
    | false => rfl
    | true => exact nodeIds_shift nodes
  | true =>
    simp only [writeInJsonFormat, eq_self_iff_true, if_true] at h
    cases hsec : interfaceSection imapp p imapp 0 with
    | none =>
      rw [hsec] at h
      exact Option.noConfusion h
    | some gt =>
      obtain ⟨groups, total⟩ := gt
      rw [hsec] at h
      obtain rfl := Option.some.inj h
      simp only [writeInJsonFormat, eq_self_iff_true, if_true, hsec, zshiftOutput,
        Option.some.injEq]
      rw [JsonOutput.mk.injEq]
      refine ⟨coordinates_shift nodes, ?_, elements_shift pm printIndices, rfl, rfl, rfl⟩
      cases printIndices with
      | false => rfl
      | true => exact nodeIds_shift nodes

/-- C6 (counterexample): for a concrete two-partition mesh, the interface node
ids emitted for partition 0 are [2, 3] both with one-based and with zero-based
indexing: the ids inside the interface section are not decremented, so not
every id emitted under zero-based indexing is one less than its one-based
counterpart. -/
theorem zeroBased_counterexample :
    (partitionOutput
        [(("a", 2), [{ id := 1, elementTypeId := 2, tags := [1, 1, 1, 1],
                       nodalConnectivity := [1, 2, 3] },
                     { id := 2, elementTypeId := 2, tags := [1, 1, 1, 2],
                       nodalConnectivity := [2, 3, 4] }])]
        [{ id := 1, coordinates := [] }, { id := 2, coordinates := [] },
         { id := 3, coordinates := [] }, { id := 4, coordinates := [] }]
        [((1, 2), [2, 3]), ((2, 1), [2, 3])] 2 false false true 0).map
      (fun out => out.interfaceGroups) =
      some [{ master := 1, value := 1, slave := 2, nodeIds := [2, 3],
              globalStartId := 0 }] ∧
    (partitionOutput
        [(("a", 2), [{ id := 1, elementTypeId := 2, tags := [1, 1, 1, 1],
                       nodalConnectivity := [1, 2, 3] },
                     { id := 2, elementTypeId := 2, tags := [1, 1, 1, 2],
                       nodalConnectivity := [2, 3, 4] }])]
        [{ id := 1, coordinates := [] }, { id := 2, coordinates := [] },
         { id := 3, coordinates := [] }, { id := 4, coordinates := [] }]
        [((1, 2), [2, 3]), ((2, 1), [2, 3])] 2 false true true 0).map
      (fun out => out.interfaceGroups) =
      some [{ master := 1, value := 1, slave := 2, nodeIds := [2, 3],
              globalStartId := 0 }] := by
  constructor
  · rfl
  · rfl

/-- C6 (amended): with zero-based indexing requested, the element ids, element
connectivity entries, local node ids and localToGlobalMap entries emitted for
a partition are exactly one less than with one-based indexing on the same
input, the decrement being applied only after local ordering and
reconciliation have completed on the original one-based ids; the interface
section however is computed from the untouched one-based interface map, so its
node ids, start offsets and total are identical in both modes rather than
decremented. -/
theorem zeroBasedIndexing_amended (meshes : Mesh) (nodeList : List NodeData)
    (imapp : IMap) (nparts : Int) (useLocal printIndices : Bool) (partition : Int)
    {outOne : JsonOutput}
    (h : partitionOutput meshes nodeList imapp nparts useLocal false printIndices partition
        = some outOne) :
    partitionOutput meshes nodeList imapp nparts useLocal true printIndices partition
      = some (zshiftOutput outOne) := by
  cases hfill : fillLocalNodeList nodeList
      (fillLocalToGlobalMap ((meshes.map fun kv =>
        (kv.1, kv.2.filter (fun e => e.isOwnedByProcess (partition + 1)))).filter
        (fun kv => !kv.2.isEmpty))) with
  | none =>
    simp only [partitionOutput, hfill] at h
    exact Option.noConfusion h
  | some local_nodes =>
    simp only [partitionOutput, hfill, Bool.false_eq_true, if_false] at h
    simp only [partitionOutput, hfill, eq_self_iff_true, if_true]
    exact writeInJsonFormat_zeroBased _ _ _ _ _ _ _ h

/-- C6 witness: the amended statement evaluated on the concrete two-partition
mesh; the zero-based run yields exactly the field-wise shift of the one-based
output, with the interface section unchanged. -/
theorem zeroBasedIndexing_amended_witness :
    partitionOutput
        [(("a", 2), [{ id := 1, elementTypeId := 2, tags := [1, 1, 1, 1],
                       nodalConnectivity := [1, 2, 3] },
                     { id := 2, elementTypeId := 2, tags := [1, 1, 1, 2],
                       nodalConnectivity := [2, 3, 4] }])]
        [{ id := 1, coordinates := [] }, { id := 2, coordinates := [] },
         { id := 3, coordinates := [] }, { id := 4, coordinates := [] }]
        [((1, 2), [2, 3]), ((2, 1), [2, 3])] 2 false true true 0
      = some (zshiftOutput
          { coordinates := [[], [], []],
            nodeIndices := [1, 2, 3],
            elements := [(("a", 2), [[1, 2, 3]], [1])],
            localToGlobalMap := [1, 2, 3],
            interfaceGroups := [{ master := 1, value := 1, slave := 2,
                                  nodeIds := [2, 3], globalStartId := 0 }],
            numInterfaceNodes := 2 }) :=
  zeroBasedIndexing_amended _ _ _ _ _ _ _ rfl

end gmsh
